import Mathlib

/-!
Shallow embedding of the `trafaret` data-validation library
(src/trafaret/__init__.py) and proofs about its combinator engine.

Modelling conventions:
* Python values flowing through validators are modelled by `Value`
  (`None`, `bool`, `int`, `str`, `list`, `dict`).  Python dictionaries
  are modelled as insertion-ordered association lists; a real Python
  dict always has pairwise distinct keys.  Floats and bytes do not
  occur in any claim and are outside the modelled value universe.
* `DataError` (class `DataError`) is modelled by `DErr`: the `error`
  attribute is either a message string (leaf) or a dict of child
  errors (branch), exactly as produced by the library.
* A validator's `check` is a function `Value → Except DErr Value`
  (`raise DataError` becomes `Except.error`, a returned value becomes
  `Except.ok`).  Composite validators receive their children as such
  functions, mirroring how `Or`/`List`/`Dict`/`Mapping` only ever call
  `child.check(value)`.
-/

namespace Trafaret

/-- Python values handled by the library (JSON-like universe). -/
inductive Value where
  | vnone : Value
  | vbool : Bool → Value
  | vint : Int → Value
  | vstr : String → Value
  | vlist : List Value → Value
  | vdict : List (Value × Value) → Value

mutual

/-- Decidable equality on `Value` (written by hand: automatic deriving
does not handle the nested `List` occurrences). -/
def Value.decEq : (a b : Value) → Decidable (a = b)
  | .vnone, .vnone => isTrue rfl
  | .vbool a, .vbool b =>
    if h : a = b then isTrue (congrArg Value.vbool h)
    else isFalse (fun hh => h (Value.vbool.inj hh))
  | .vint a, .vint b =>
    if h : a = b then isTrue (congrArg Value.vint h)
    else isFalse (fun hh => h (Value.vint.inj hh))
  | .vstr a, .vstr b =>
    if h : a = b then isTrue (congrArg Value.vstr h)
    else isFalse (fun hh => h (Value.vstr.inj hh))
  | .vlist xs, .vlist ys =>
    match decEqVList xs ys with
    | isTrue h => isTrue (congrArg Value.vlist h)
    | isFalse h => isFalse (fun hh => h (Value.vlist.inj hh))
  | .vdict xs, .vdict ys =>
    match decEqVPairs xs ys with
    | isTrue h => isTrue (congrArg Value.vdict h)
    | isFalse h => isFalse (fun hh => h (Value.vdict.inj hh))
  | .vnone, .vbool _ => isFalse (fun h => Value.noConfusion h)
  | .vnone, .vint _ => isFalse (fun h => Value.noConfusion h)
  | .vnone, .vstr _ => isFalse (fun h => Value.noConfusion h)
  | .vnone, .vlist _ => isFalse (fun h => Value.noConfusion h)
  | .vnone, .vdict _ => isFalse (fun h => Value.noConfusion h)
  | .vbool _, .vnone => isFalse (fun h => Value.noConfusion h)
  | .vbool _, .vint _ => isFalse (fun h => Value.noConfusion h)
  | .vbool _, .vstr _ => isFalse (fun h => Value.noConfusion h)
  | .vbool _, .vlist _ => isFalse (fun h => Value.noConfusion h)
  | .vbool _, .vdict _ => isFalse (fun h => Value.noConfusion h)
  | .vint _, .vnone => isFalse (fun h => Value.noConfusion h)
  | .vint _, .vbool _ => isFalse (fun h => Value.noConfusion h)
  | .vint _, .vstr _ => isFalse (fun h => Value.noConfusion h)
  | .vint _, .vlist _ => isFalse (fun h => Value.noConfusion h)
  | .vint _, .vdict _ => isFalse (fun h => Value.noConfusion h)
  | .vstr _, .vnone => isFalse (fun h => Value.noConfusion h)
  | .vstr _, .vbool _ => isFalse (fun h => Value.noConfusion h)
  | .vstr _, .vint _ => isFalse (fun h => Value.noConfusion h)
  | .vstr _, .vlist _ => isFalse (fun h => Value.noConfusion h)
  | .vstr _, .vdict _ => isFalse (fun h => Value.noConfusion h)
  | .vlist _, .vnone => isFalse (fun h => Value.noConfusion h)
  | .vlist _, .vbool _ => isFalse (fun h => Value.noConfusion h)
  | .vlist _, .vint _ => isFalse (fun h => Value.noConfusion h)
  | .vlist _, .vstr _ => isFalse (fun h => Value.noConfusion h)
  | .vlist _, .vdict _ => isFalse (fun h => Value.noConfusion h)
  | .vdict _, .vnone => isFalse (fun h => Value.noConfusion h)
  | .vdict _, .vbool _ => isFalse (fun h => Value.noConfusion h)
  | .vdict _, .vint _ => isFalse (fun h => Value.noConfusion h)
  | .vdict _, .vstr _ => isFalse (fun h => Value.noConfusion h)
  | .vdict _, .vlist _ => isFalse (fun h => Value.noConfusion h)

/-- Decidable equality on lists of values. -/
def decEqVList : (xs ys : List Value) → Decidable (xs = ys)
  | [], [] => isTrue rfl
  | [], _ :: _ => isFalse (fun h => List.noConfusion h)
  | _ :: _, [] => isFalse (fun h => List.noConfusion h)
  | x :: xs, y :: ys =>
    match Value.decEq x y with
    | isFalse h1 => isFalse (fun hh => h1 (List.cons.inj hh).1)
    | isTrue h1 =>
      match decEqVList xs ys with
      | isTrue h2 => isTrue (by rw [h1, h2])
      | isFalse h2 => isFalse (fun hh => h2 (List.cons.inj hh).2)

/-- Decidable equality on lists of key-value pairs. -/
def decEqVPairs : (xs ys : List (Value × Value)) → Decidable (xs = ys)
  | [], [] => isTrue rfl
  | [], _ :: _ => isFalse (fun h => List.noConfusion h)
  | _ :: _, [] => isFalse (fun h => List.noConfusion h)
  | (k, v) :: xs, (k', v') :: ys =>
    match Value.decEq k k' with
    | isFalse h1 =>
      isFalse (fun hh => h1 (congrArg Prod.fst (List.cons.inj hh).1))
    | isTrue h1 =>
      match Value.decEq v v' with
      | isFalse h2 =>
        isFalse (fun hh => h2 (congrArg Prod.snd (List.cons.inj hh).1))
      | isTrue h2 =>
        match decEqVPairs xs ys with
        | isTrue h3 => isTrue (by rw [h1, h2, h3])
        | isFalse h3 => isFalse (fun hh => h3 (List.cons.inj hh).2)

end

instance : DecidableEq Value := Value.decEq

/-- `DataError`: a leaf message or a branch of child errors keyed by
index / field name / original key (class `DataError`, whose `error`
attribute is a message or a dict of nested `DataError`s). -/
inductive DErr where
  | leaf : String → DErr
  | branch : List (Value × DErr) → DErr

mutual

/-- Decidable equality on `DErr` (hand-written for the same reason as
`Value.decEq`). -/
def DErr.decEq : (a b : DErr) → Decidable (a = b)
  | .leaf a, .leaf b =>
    if h : a = b then isTrue (congrArg DErr.leaf h)
    else isFalse (fun hh => h (DErr.leaf.inj hh))
  | .branch xs, .branch ys =>
    match decEqEPairs xs ys with
    | isTrue h => isTrue (congrArg DErr.branch h)
    | isFalse h => isFalse (fun hh => h (DErr.branch.inj hh))
  | .leaf _, .branch _ => isFalse (fun h => DErr.noConfusion h)
  | .branch _, .leaf _ => isFalse (fun h => DErr.noConfusion h)

/-- Decidable equality on lists of keyed child errors. -/
def decEqEPairs : (xs ys : List (Value × DErr)) → Decidable (xs = ys)
  | [], [] => isTrue rfl
  | [], _ :: _ => isFalse (fun h => List.noConfusion h)
  | _ :: _, [] => isFalse (fun h => List.noConfusion h)
  | (k, v) :: xs, (k', v') :: ys =>
    match Value.decEq k k' with
    | isFalse h1 =>
      isFalse (fun hh => h1 (congrArg Prod.fst (List.cons.inj hh).1))
    | isTrue h1 =>
      match DErr.decEq v v' with
      | isFalse h2 =>
        isFalse (fun hh => h2 (congrArg Prod.snd (List.cons.inj hh).1))
      | isTrue h2 =>
        match decEqEPairs xs ys with
        | isTrue h3 => isTrue (by rw [h1, h2, h3])
        | isFalse h3 => isFalse (fun hh => h3 (List.cons.inj hh).2)

end

instance : DecidableEq DErr := DErr.decEq

instance {ε α : Type} [DecidableEq ε] [DecidableEq α] :
    DecidableEq (Except ε α) := fun a b =>
  match a, b with
  | .ok x, .ok y =>
    if h : x = y then isTrue (congrArg Except.ok h)
    else isFalse (fun hh => h (Except.ok.inj hh))
  | .error x, .error y =>
    if h : x = y then isTrue (congrArg Except.error h)
    else isFalse (fun hh => h (Except.error.inj hh))
  | .ok _, .error _ => isFalse (fun h => Except.noConfusion h)
  | .error _, .ok _ => isFalse (fun h => Except.noConfusion h)

/-- Result of a `check` call: a converted value or a `DataError`. -/
abbrev Res := Except DErr Value

/-- The contract every validator (trafaret) implements. -/
abbrev Check := Value → Res

/-- Association-list lookup, modelling Python `d[k]` / `k in d`. -/
def alookup {α : Type} : List (Value × α) → Value → Option α
  | [], _ => none
  | (k, v) :: rest, key => if k = key then some v else alookup rest key

/-- Python `d[k] = v`: replace in place if the key exists, else append. -/
def dinsert {α : Type} : List (Value × α) → Value → α → List (Value × α)
  | [], k, v => [(k, v)]
  | (k', v') :: rest, k, v =>
    if k' = k then (k, v) :: rest else (k', v') :: dinsert rest k v

/-- Python `d.pop(k, …)`'s removal effect on the dict. -/
def vremove : List (Value × Value) → Value → List (Value × Value)
  | [], _ => []
  | p :: rest, k => if p.1 = k then vremove rest k else p :: vremove rest k

/-- Python `str(key)` as used in the `"%s is not allowed key"` message.
Lists and dicts are unhashable in Python and can never be dict keys, so
the rendering of the last two constructors is unreachable from `Dict`. -/
def pyStr : Value → String
  | .vnone => "None"
  | .vbool b => if b then "True" else "False"
  | .vint n => toString n
  | .vstr s => s
  | .vlist _ => "<list>"
  | .vdict _ => "<dict>"

/-- Python `key in names` for a list of allowed/ignored extra names
(string equality; a non-string key never equals a string name). -/
def inStrList (v : Value) (names : List String) : Bool :=
  match v with
  | .vstr s => names.contains s
  | _ => false

/-!  The validator contract (`Trafaret.check` / `_convert` / `append`,
lines 110-171).  A validator is its core validation logic plus the
converter pipeline.  `_check`-style subclasses (which validate and then
convert the *original* value) and `_check_val`-style subclasses are
unified into one `baseCheck` function giving the pre-conversion result.
`_convert` runs `self.converters` if the attribute was ever set by
`append`, else the single default `self.converter`; `Option` models
that the attribute is unset until the first `append`. -/

/-- The `for converter in …` loop of `Trafaret._convert`. -/
def applyConverters (cs : List (Value → Value)) (v : Value) : Value :=
  cs.foldl (fun acc f => f acc) v

/-- A validator object: core check logic, the default `converter`
method, and the `converters` list (unset until the first `append`). -/
structure Traf where
  baseCheck : Check
  converter : Value → Value
  converters : Option (List (Value → Value))

/-- `Trafaret._convert`. -/
def Traf.convertV (t : Traf) (v : Value) : Value :=
  applyConverters (t.converters.getD [t.converter]) v

/-- `Trafaret.check`: run the core logic, and on success only, run the
converter pipeline on its result. -/
def Traf.check (t : Traf) (v : Value) : Res :=
  match t.baseCheck v with
  | .ok r => .ok (t.convertV r)
  | .error e => .error e

/-- `Trafaret.append`: append a converter (creating the list if the
attribute is still unset). -/
def Traf.append (t : Traf) (c : Value → Value) : Traf :=
  match t.converters with
  | some cs => { t with converters := some (cs ++ [c]) }
  | none => { t with converters := some [c] }

/-- A chain of `append` calls (the `>>` sugar), in registration order. -/
def Traf.appendAll (t : Traf) (cs : List (Value → Value)) : Traf :=
  cs.foldl Traf.append t

/-- A freshly constructed validator with core logic `f`: its default
`converter` method is the base class identity and `converters` is
unset. -/
def mkTraf (f : Check) : Traf :=
  ⟨f, fun v => v, none⟩

/-!  Leaf validators used in the concrete claims.  `Int` and `String`
are outside the core per the spec, but the `Dict`/`List`/`Or`/`Mapping`
claims instantiate their child validators with them, so they are
embedded here from `class Int(Float)` (lines 435-454 over the integer
branch of `Float._check_val`, lines 387-415) and `class String`
(lines 474-517, with `regex=None`). -/

/-- The numeric value of an int-like Python object, for bound checks
(`bool` is a subclass of `int` in Python: `True == 1`). -/
def intOf : Value → Int
  | .vint n => n
  | .vbool b => if b then 1 else 0
  | _ => 0

/-- The `gte`/`lte`/`lt`/`gt` bound checks of `Float._check_val`
(lines 407-414), in source order, on an integer value. -/
def boundsErr (gte lte lt gt : Option Int) (n : Int) : Option DErr := Id.run do
  if let some b := gte then
    if n < b then
      return some (.leaf ("value is less than " ++ toString b))
  if let some b := lte then
    if n > b then
      return some (.leaf ("value is greater than " ++ toString b))
  if let some b := lt then
    if n ≥ b then
      return some (.leaf ("value should be less than " ++ toString b))
  if let some b := gt then
    if n ≤ b then
      return some (.leaf ("value should be greater than " ++ toString b))
  return none

/-- Digit accumulator for `pyParseInt`: fails on the first non-digit. -/
def parseNatGo : List Char → Nat → Option Nat
  | [], acc => some acc
  | c :: cs, acc =>
    if c.isDigit then parseNatGo cs (acc * 10 + (c.toNat - 48)) else none

/-- A non-empty all-digit run of characters as a number. -/
def parseNatChars (cs : List Char) : Option Nat :=
  match cs with
  | [] => none
  | _ => parseNatGo cs 0

/-- Python `int(s)` on a plain decimal literal with optional sign
(whitespace padding and digit-group underscores are not modelled; no
claim depends on them).  `none` models the `ValueError`. -/
def pyParseInt (s : String) : Option Int :=
  match s.data with
  | '-' :: rest => (parseNatChars rest).map (fun n => -(n : Int))
  | '+' :: rest => (parseNatChars rest).map (fun n => (n : Int))
  | cs => (parseNatChars cs).map (fun n => (n : Int))

/-- `Int()._check_val`: ints (and bools, which Python counts as ints)
pass unchanged; strings go through `Int._converter` / `int(val)`;
anything else is `"value is not int"`.  Floats and bytes are outside
the modelled value universe. -/
def intCheckVal (gte lte lt gt : Option Int) : Check := fun v =>
  match v with
  | .vint _ => match boundsErr gte lte lt gt (intOf v) with
    | some e => .error e
    | none => .ok v
  | .vbool _ => match boundsErr gte lte lt gt (intOf v) with
    | some e => .error e
    | none => .ok v
  | .vstr s =>
    match pyParseInt s with
    | some n => match boundsErr gte lte lt gt n with
      | some e => .error e
      | none => .ok (.vint n)
    | none => .error (.leaf "value can't be converted to int")
  | _ => .error (.leaf "value is not int")

/-- `Int()` with no bounds, as in `Dict(foo=Int)` / `List(Int)`. -/
def intCheck : Check := intCheckVal none none none none

/-- `String(allow_blank=…, regex=None)._check_val`; with `regex=None`
the default `String.converter` is the identity on the returned
string, so this is also `String(...).check`. -/
def stringCheckVal (allow_blank : Bool) : Check := fun v =>
  match v with
  | .vstr s =>
    if !allow_blank && s.length == 0 then
      .error (.leaf "blank value is not allowed")
    else .ok v
  | _ => .error (.leaf "value is not string")

/-- `String()` as in `Dict(bar=String)`. -/
def stringCheck : Check := stringCheckVal false

/-- `Null().check`: `_check` passes `None` through unchanged and
rejects everything else (lines 275-290). -/
def nullCheck : Check := fun v =>
  match v with
  | .vnone => .ok v
  | _ => .error (.leaf "value should be None")

/-!  `Or` (lines 236-272). -/

/-- The `for trafaret in self.trafarets` loop of `Or._check_val`:
`i` is the position of the next child, `errs` the errors collected so
far (`dict(enumerate(errors))` keys them by 0-based position). -/
def orLoop (v : Value) : List Check → Nat → List (Value × DErr) → Res
  | [], _, errs => .error (.branch errs)
  | t :: ts, i, errs =>
    match t v with
    | .ok r => .ok r
    | .error e => orLoop v ts (i + 1) (errs ++ [(.vint i, e)])

/-- `Or._check_val`. -/
def orCheckVal (ts : List Check) : Check := fun v => orLoop v ts 0 []

/-- `Or(…).check` (fresh `Or`: identity converter pipeline). -/
def orCheck (ts : List Check) : Check :=
  (mkTraf (orCheckVal ts)).check

/-!  `List` (lines 642-708). -/

/-- The element loop of `List._check_val`: returns the collected
success list and the branch errors keyed by 0-based index, starting at
index `i`. -/
def listLoop (t : Check) : List Value → Nat → List Value × List (Value × DErr)
  | [], _ => ([], [])
  | x :: xs, i =>
    let rest := listLoop t xs (i + 1)
    match t x with
    | .ok r => (r :: rest.1, rest.2)
    | .error e => (rest.1, (.vint i, e) :: rest.2)

/-- The per-element part of `List._check_val` after the length checks:
if any element failed the branch error is raised and the collected
list is discarded. -/
def listElems (t : Check) (xs : List Value) : Res :=
  let r := listLoop t xs 0
  if r.2.isEmpty then .ok (.vlist r.1) else .error (.branch r.2)

/-- `List._check_val`: reject non-lists, then the length bounds
(`min_length`, optional `max_length`), then validate every element. -/
def listCheckVal (t : Check) (min_length : Nat) (max_length : Option Nat) :
    Check := fun v =>
  match v with
  | .vlist xs =>
    if xs.length < min_length then
      .error (.leaf ("list length is less than " ++ toString min_length))
    else
      match max_length with
      | some m =>
        if xs.length > m then
          .error (.leaf ("list length is greater than " ++ toString m))
        else listElems t xs
      | none => listElems t xs
  | _ => .error (.leaf "value is not list")

/-- `List(…).check` (fresh `List`: identity converter pipeline). -/
def listCheck (t : Check) (min_length : Nat) (max_length : Option Nat) :
    Check :=
  (mkTraf (listCheckVal t min_length max_length)).check

/-!  `Key` and `Dict` (lines 711-870).  `Key.__init__` stores
`default=None` for an omitted default, so "no default" and
"default None" are the *same* object state; accordingly `default`
below is a plain `Value` and `Value.vnone` covers both spellings
(`self.default is not None` is `default ≠ .vnone`). -/

/-- `class Key`: source name, optional rename target, default,
optional flag, and the child validator set by `set_trafaret`
(as its `check` function). -/
structure TKey where
  name : String
  to_name : Option String
  default : Value
  optional : Bool
  trafaret : Check

/-- `Key.get_name`: `self.to_name or self.name` (Python truthiness:
`None` and the empty string both fall back to the source name). -/
def TKey.get_name (k : TKey) : String :=
  match k.to_name with
  | some s => if s = "" then k.name else s
  | none => k.name

/-- `Key.make_optional`: sets the optional flag and resets the default
to `None`. -/
def TKey.make_optional (k : TKey) : TKey :=
  { k with optional := true, default := .vnone }

/-- `Key.pop(data)` (lines 724-730): the generator yields at most one
`(name, value-or-DataError)` pair (the `raise StopIteration` ends it
after the first yield, pre-PEP-479 semantics), and mutates `data` via
`data.pop(self.name, self.default)`.  Returns the yielded pair (if
any) and the updated `data`.  If the source name is present or a
non-`None` default exists, the present-or-default value is run through
the child validator (`catch_error` turns a raised `DataError` into a
returned one) and yielded under `get_name()`; a missing required key
yields `'is required'` under the *source* name `self.name`. -/
def TKey.pop (k : TKey) (data : List (Value × Value)) :
    Option (String × Res) × List (Value × Value) :=
  if (alookup data (.vstr k.name)).isSome ∨ k.default ≠ .vnone then
    (some (k.get_name, k.trafaret ((alookup data (.vstr k.name)).getD k.default)),
     vremove data (.vstr k.name))
  else if ¬ k.optional then
    (some (k.name, .error (.leaf "is required")), data)
  else
    (none, data)

/-- `class Dict`: declared keys in declaration order plus the
extra-key policy state (lines 792-801). -/
structure DictSchema where
  keys : List TKey
  extras : List String
  allow_any : Bool
  ignore : List String
  ignore_any : Bool

/-- `Dict(…)` with declared keys and the default (empty) policy. -/
def mkDict (keys : List TKey) : DictSchema :=
  ⟨keys, [], false, [], false⟩

/-- `Dict.allow_extra(*names)` (lines 803-809). -/
def DictSchema.allow_extra (d : DictSchema) (names : List String) :
    DictSchema :=
  names.foldl
    (fun d n =>
      if n = "*" then { d with allow_any := true }
      else { d with extras := d.extras ++ [n] })
    d

/-- `Dict.ignore_extra(*names)` (lines 811-817). -/
def DictSchema.ignore_extra (d : DictSchema) (names : List String) :
    DictSchema :=
  names.foldl
    (fun d n =>
      if n = "*" then { d with ignore_any := true }
      else { d with ignore := d.ignore ++ [n] })
    d

/-- `Dict.make_optional(*args)` (lines 819-822). -/
def DictSchema.make_optional (d : DictSchema) (args : List String) :
    DictSchema :=
  { d with
    keys := d.keys.map
      (fun k => if k.name ∈ args ∨ "*" ∈ args then k.make_optional else k) }

/-- The first pass of `Dict._check_val` (lines 830-835): pop every
declared key from `data`, sorting each yielded pair into `collect` or
`errors`.  Returns the remaining `data`, `collect` and `errors`. -/
def keysPass :
    List TKey → List (Value × Value) → List (Value × Value) →
    List (Value × DErr) →
    List (Value × Value) × List (Value × Value) × List (Value × DErr)
  | [], data, collect, errors => (data, collect, errors)
  | k :: ks, data, collect, errors =>
    match k.pop data with
    | (none, data') => keysPass ks data' collect errors
    | (some (n, .ok v), data') =>
      keysPass ks data' (dinsert collect (.vstr n) v) errors
    | (some (n, .error e), data') =>
      keysPass ks data' collect (dinsert errors (.vstr n) e)

/-- One step of the extra-keys loop of `Dict._check_val` (lines
837-843).  `snapshot` is the `data` dict the loop iterates over; note
the allowed-extra branch is the source's `collect[key] = data` — it
stores the whole remaining `data` dict, not the entry's own value. -/
def extrasStep (d : DictSchema) (snapshot : List (Value × Value))
    (acc : List (Value × Value) × List (Value × DErr)) (kv : Value × Value) :
    List (Value × Value) × List (Value × DErr) :=
  if inStrList kv.1 d.ignore then acc
  else if ¬ d.allow_any ∧ inStrList kv.1 d.extras = false then
    (acc.1, dinsert acc.2 kv.1 (.leaf (pyStr kv.1 ++ " is not allowed key")))
  else
    (dinsert acc.1 kv.1 (.vdict snapshot), acc.2)

/-- The second pass of `Dict._check_val` (lines 836-843): skipped
entirely when `ignore_any` is set. -/
def extrasPass (d : DictSchema) (data : List (Value × Value))
    (collect : List (Value × Value)) (errors : List (Value × DErr)) :
    List (Value × Value) × List (Value × DErr) :=
  if d.ignore_any then (collect, errors)
  else data.foldl (extrasStep d data) (collect, errors)

/-- `Dict._check_val` (lines 824-846): reject non-dicts, run both
passes over a copy of the input, and fail with the aggregated branch
error iff any error was recorded. -/
def dictCheckVal (d : DictSchema) : Check := fun value =>
  match value with
  | .vdict entries =>
    let p1 := keysPass d.keys entries [] []
    let p2 := extrasPass d p1.1 p1.2.1 p1.2.2
    if p2.2.isEmpty then .ok (.vdict p2.1) else .error (.branch p2.2)
  | _ => .error (.leaf "value is not dict")

/-- `Dict(…).check` (fresh `Dict`: identity converter pipeline). -/
def dictCheck (d : DictSchema) : Check :=
  (mkTraf (dictCheckVal d)).check

/-!  `Mapping` (lines 873-913). -/

/-- One iteration of the `for key, value in mapping.items()` loop of
`Mapping._check_val`: both the key and the value validator are run;
`pair_errors` gets `'key'` and/or `'value'` entries (in that
insertion order); a clean pair goes into `checked_mapping` under the
*validated* key, a dirty one into `errors` under the *original* key. -/
def mappingStep (kt vt : Check)
    (acc : List (Value × Value) × List (Value × DErr)) (p : Value × Value) :
    List (Value × Value) × List (Value × DErr) :=
  match kt p.1, vt p.2 with
  | .ok ck, .ok cv => (dinsert acc.1 ck cv, acc.2)
  | .ok _, .error ev =>
    (acc.1, dinsert acc.2 p.1 (.branch [(.vstr "value", ev)]))
  | .error ek, .ok _ =>
    (acc.1, dinsert acc.2 p.1 (.branch [(.vstr "key", ek)]))
  | .error ek, .error ev =>
    (acc.1,
     dinsert acc.2 p.1 (.branch [(.vstr "key", ek), (.vstr "value", ev)]))

/-- `Mapping._check_val` on the `mapping.items()` view of the input
mapping (the method reads the input only through `.items()`). -/
def mappingCheckVal (kt vt : Check) (entries : List (Value × Value)) : Res :=
  let r := entries.foldl (mappingStep kt vt) ([], [])
  if r.2.isEmpty then .ok (.vdict r.1) else .error (.branch r.2)

/-!  `Forward` (lines 992-1031).  The binding slot `self.trafaret`
starts as `None`; `provide` raises `RuntimeError` — a construction
error, not a `DataError` — when it is already set (`if self.trafaret:`
— a bound validator object is always truthy). -/

/-- `Forward.provide` (lines 1016-1019): `Except String` models the
construction-time `RuntimeError`, distinct from the validation error
type `DErr`. -/
def forwardProvide (slot : Option Check) (t : Check) :
    Except String (Option Check) :=
  match slot with
  | some _ => .error "trafaret for Forward is already specified"
  | none => .ok (some t)

/-- `Forward._check_val` (lines 1021-1022): delegate to the bound
validator.  While unbound, `self.trafaret.check(value)` crashes with
an `AttributeError` (no `DataError` result exists), modelled as
`none`.  A fresh `Forward` has the identity converter pipeline, so
this is also `Forward.check`. -/
def forwardCheckVal (slot : Option Check) (v : Value) : Option Res :=
  match slot with
  | some t => some (t v)
  | none => none

/-- `Dict._check_val` never assigns any `self` attribute: a `check`
call returns its result and leaves the schema exactly as it was.  This
threads the (potentially mutable) schema state through the call,
mirroring that the only schema mutations in the source are the
construction-time operations (`allow_extra`, `ignore_extra`,
`make_optional`, `Forward.provide`, `append`). -/
def dictCheckState (d : DictSchema) (v : Value) : Res × DictSchema :=
  (dictCheckVal d v, d)

/-!  Key-name disjointness.  A `Key`'s `pop` only ever touches the
input entry named `self.name` and only ever reports under `self.name`
or `self.get_name()`; two declared keys interfere exactly when those
names collide.  Schemas built from `Dict(**kwargs)` always satisfy
this (kwargs names are distinct and unrenamed). -/

/-- Two declared keys collide on some source/target name. -/
def nameClash (a b : TKey) : Prop :=
  a.name = b.name ∨ a.name = b.get_name ∨
  a.get_name = b.name ∨ a.get_name = b.get_name

instance (a b : TKey) : Decidable (nameClash a b) := by
  unfold nameClash
  exact inferInstance

/-!  Concrete schema instances used by the claims' concrete parts
(taken from the `Dict` doctests, lines 753-789, and the §8 examples of
the spec). -/

/-- `Key('foo')` with trafaret `Int`, from `Dict(foo=Int, …)`. -/
def fooK : TKey := ⟨"foo", none, .vnone, false, intCheck⟩

/-- `Key('bar')` with trafaret `String`, from `Dict(…, bar=String)`. -/
def barK : TKey := ⟨"bar", none, .vnone, false, stringCheck⟩

/-- `Key('bar', default='nyanya') >> 'baz'` with trafaret `String`
(line 781). -/
def barDefK : TKey := ⟨"bar", some "baz", .vstr "nyanya", false, stringCheck⟩

/-- `Key('bar') >> 'baz'` with trafaret `String`: a renamed key with
no default, not optional. -/
def renK : TKey := ⟨"bar", some "baz", .vnone, false, stringCheck⟩

/-- `Dict(foo=Int, bar=String)` (line 753). -/
def dFB : DictSchema := mkDict [fooK, barK]

/-- `Dict(foo=Int, bar=String).allow_extra("eggs")` (line 761). -/
def dC2 : DictSchema := (mkDict [fooK, barK]).allow_extra ["eggs"]

/-- `Dict({Key('bar', default='nyanya') >> 'baz': String}, foo=Int)`
(line 781; `__init__` chains the kwargs before the explicit key dict,
so `foo` precedes `bar`). -/
def dC6 : DictSchema := mkDict [fooK, barDefK]

/-- A schema with a single renamed required key:
`Dict({Key('bar') >> 'baz': String})`. -/
def dRen : DictSchema := mkDict [renK]

/-- A concrete converter `lambda x: x + 1` over int values. -/
def incConv : Value → Value := fun v => .vint (intOf v + 1)

/-- A concrete converter `lambda x: x * 2` over int values. -/
def dblConv : Value → Value := fun v => .vint (intOf v * 2)

/-!  ## Helper lemmas -/

/-- A fresh validator's `check` is exactly its core logic (the unset
converter pipeline applies only the identity default converter). -/
theorem mkTraf_check (f : Check) (v : Value) : (mkTraf f).check v = f v := by
  cases h : f v <;>
    simp [Traf.check, mkTraf, Traf.convertV, applyConverters, h]

theorem alookup_dinsert_self {α : Type} (l : List (Value × α)) (k : Value)
    (v : α) : alookup (dinsert l k v) k = some v := by
  induction l with
  | nil => simp [dinsert, alookup]
  | cons p rest ih =>
    obtain ⟨pk, pv⟩ := p
    by_cases h : pk = k
    · simp [dinsert, h, alookup]
    · simp [dinsert, h, alookup, ih]

theorem alookup_dinsert_ne {α : Type} (l : List (Value × α)) (k k' : Value)
    (v : α) (h : k' ≠ k) :
    alookup (dinsert l k v) k' = alookup l k' := by
  induction l with
  | nil => simp [dinsert, alookup, h.symm]
  | cons p rest ih =>
    obtain ⟨pk, pv⟩ := p
    by_cases hp : pk = k
    · subst hp
      have hk' : ¬ (pk = k') := fun hh => h hh.symm
      simp [dinsert, alookup, hk']
    · by_cases hq : pk = k' <;> simp [dinsert, hp, alookup, hq, ih, h]

theorem alookup_nil_none {α : Type} (k : Value) :
    alookup ([] : List (Value × α)) k = none := rfl

theorem alookup_some_not_isEmpty {α : Type} (l : List (Value × α)) (k : Value)
    (e : α) (h : alookup l k = some e) : l.isEmpty = false := by
  cases l with
  | nil => simp [alookup] at h
  | cons p rest => rfl

theorem alookup_none_iff {α : Type} (l : List (Value × α)) (k : Value) :
    alookup l k = none ↔ ∀ p ∈ l, p.1 ≠ k := by
  induction l with
  | nil => simp [alookup]
  | cons p rest ih =>
    obtain ⟨pk, pv⟩ := p
    by_cases h : pk = k <;> simp [alookup, h, ih]

theorem alookup_vremove_self (l : List (Value × Value)) (k : Value) :
    alookup (vremove l k) k = none := by
  induction l with
  | nil => simp [vremove, alookup]
  | cons p rest ih =>
    obtain ⟨pk, pv⟩ := p
    by_cases h : pk = k <;> simp [vremove, h, alookup, ih]

theorem alookup_vremove_ne (l : List (Value × Value)) (k k' : Value)
    (h : k' ≠ k) : alookup (vremove l k) k' = alookup l k' := by
  induction l with
  | nil => simp [vremove]
  | cons p rest ih =>
    obtain ⟨pk, pv⟩ := p
    by_cases hp : pk = k
    · subst hp
      have hk' : ¬ (pk = k') := fun hh => h hh.symm
      simp [vremove, alookup, hk', ih]
    · by_cases hq : pk = k' <;> simp [vremove, hp, alookup, hq, ih, h]

theorem mem_vremove (l : List (Value × Value)) (k : Value) (p : Value × Value)
    (h : p ∈ vremove l k) : p ∈ l := by
  induction l with
  | nil => simp [vremove] at h
  | cons q rest ih =>
    by_cases hq : q.1 = k
    · rw [vremove, if_pos hq] at h
      exact List.mem_cons_of_mem q (ih h)
    · rw [vremove, if_neg hq] at h
      rcases List.mem_cons.1 h with h1 | h2
      · exact h1 ▸ List.mem_cons_self q rest
      · exact List.mem_cons_of_mem q (ih h2)

theorem alookup_vremove_none (l : List (Value × Value)) (k n : Value)
    (h : alookup l n = none) : alookup (vremove l k) n = none := by
  rw [alookup_none_iff] at h ⊢
  exact fun p hp => h p (mem_vremove l k p hp)

/-!  ## Claim theorems -/

/-- Claim C9: on an unmodified schema, `check` is a pure deterministic
function of the frozen schema and the input value: `_check_val` never
assigns a `self` attribute, so a call leaves the schema state intact
(`dictCheckState` threads it explicitly) and an immediately repeated
call on the same input produces the identical result. -/
theorem check_is_deterministic (t : Traf) (d : DictSchema) (v : Value) :
    t.check v = t.check v ∧
    (dictCheckState d v).2 = d ∧
    (dictCheckState ((dictCheckState d v).2) v).1 = (dictCheckState d v).1 :=
  ⟨rfl, rfl, rfl⟩

/-- Claim C7: binding an unbound `Forward` succeeds; binding an
already-bound one raises the construction-time `RuntimeError` (not a
validation `DataError`); and after any successful bind, checking the
`Forward` returns exactly the bound validator's `check` result. -/
theorem forward_bind_once_then_delegate :
    (∀ t : Check, forwardProvide none t = .ok (some t)) ∧
    (∀ t t' : Check,
      forwardProvide (some t') t =
        .error "trafaret for Forward is already specified") ∧
    (∀ (slot slot' : Option Check) (t : Check),
      forwardProvide slot t = .ok slot' →
      ∀ v, forwardCheckVal slot' v = some (t v)) := by
  refine ⟨fun t => rfl, fun t t' => rfl, ?_⟩
  intro slot slot' t h v
  cases slot with
  | some t0 => simp [forwardProvide] at h
  | none =>
    simp [forwardProvide] at h
    subst h
    rfl

/-- Witness for C7 at a concrete bind: binding a fresh `Forward` to
`Int()` and checking `3` gives `Int().check(3)`. -/
theorem forward_bind_once_then_delegate_witness :
    forwardCheckVal (some intCheck) (.vint 3) = some (.ok (.vint 3)) := by
  have h := forward_bind_once_then_delegate.2.2 none (some intCheck) intCheck
    rfl (.vint 3)
  exact h

/-- Claim C10: a `Key` whose default is `None` behaves exactly like a
defaultless key: if the source name is absent, a non-optional key
yields the `'is required'` error and an optional key contributes
nothing; any non-error-yielding absent pop must come from a
non-`None` default pushed through the child validator (so the raw
default `None` never flows into the output); and `make_optional`
resets the default to `None` while setting the optional flag. -/
theorem key_default_none_means_no_default (k : TKey)
    (data : List (Value × Value))
    (hmiss : alookup data (.vstr k.name) = none) :
    (k.default = .vnone → ¬ k.optional →
      k.pop data = (some (k.name, .error (.leaf "is required")), data)) ∧
    (k.default = .vnone → k.optional → k.pop data = (none, data)) ∧
    (∀ n r, (k.pop data).1 = some (n, r) →
      r ≠ .error (.leaf "is required") →
      k.default ≠ .vnone ∧ n = k.get_name ∧ r = k.trafaret k.default) ∧
    (k.make_optional.default = .vnone ∧ k.make_optional.optional = true) := by
  refine ⟨?_, ?_, ?_, rfl, rfl⟩
  · intro hd ho
    simp [TKey.pop, hmiss, hd, ho]
  · intro hd ho
    simp [TKey.pop, hmiss, hd, ho]
  · intro n r hpop hreq
    by_cases hd : k.default = .vnone
    · by_cases ho : k.optional
      · simp [TKey.pop, hmiss, hd, ho] at hpop
      · simp [TKey.pop, hmiss, hd, ho] at hpop
        exact absurd hpop.2.symm hreq
    · simp [TKey.pop, hmiss, hd] at hpop
      exact ⟨hd, hpop.1.symm, hpop.2.symm⟩

/-- Witness for C10: `Key('bar')` (constructed with the implicit
`default=None`) against an empty input yields the required error. -/
theorem key_default_none_means_no_default_witness :
    barK.pop [] = (some ("bar", .error (.leaf "is required")), []) := by
  have h := (key_default_none_means_no_default barK [] rfl).1 rfl (by decide)
  exact h

/-- Claim C2 (code bug evaluation): `Dict(foo=Int,
bar=String).allow_extra("eggs")` checking
`{"foo": 1, "bar": "x", "eggs": None}` succeeds, but the allowed
extra key `"eggs"` is bound to the whole leftover-extras dict
`{"eggs": None}` (line 843: `collect[key] = data`) instead of its own
original value `None`, contradicting the specified copy-through. -/
theorem dict_allowed_extra_gets_whole_dict :
    dictCheck dC2
      (.vdict [(.vstr "foo", .vint 1), (.vstr "bar", .vstr "x"),
               (.vstr "eggs", .vnone)]) =
    .ok (.vdict [(.vstr "foo", .vint 1), (.vstr "bar", .vstr "x"),
                 (.vstr "eggs", .vdict [(.vstr "eggs", .vnone)])]) := by
  decide

/-- Claim C1 counterexample: for the schema
`Dict({Key('bar') >> 'baz': String})` and the empty input, the
missing-key error is keyed by the *source* name `'bar'`
(`Key.pop` yields `self.name`, line 730), not by the rename target
`'baz'` = `get_name()` as the claim states: the error branch holds no
entry at all under `'baz'`. -/
theorem dict_required_error_not_under_target_cx :
    dictCheck dRen (.vdict []) =
      .error (.branch [(.vstr "bar", .leaf "is required")]) ∧
    alookup [((Value.vstr "bar"), DErr.leaf "is required")] (.vstr "baz")
      = none ∧
    renK.get_name = "baz" ∧ renK.name = "bar" := by
  refine ⟨by decide, rfl, rfl, rfl⟩

/-- Claim C6: checking `Dict({Key('bar', default='nyanya') >> 'baz':
String}, foo=Int)` against `{"foo": 4}` yields exactly
`{"foo": 4, "baz": "nyanya"}`; in general a key that is absent from
the input but has a non-`None` default runs that default through its
child validator exactly like a present value and reports it under the
target name `get_name()`. -/
theorem dict_default_renamed_check :
    dictCheck dC6 (.vdict [(.vstr "foo", .vint 4)]) =
      .ok (.vdict [(.vstr "foo", .vint 4), (.vstr "baz", .vstr "nyanya")]) ∧
    (∀ (k : TKey) (data : List (Value × Value)),
      alookup data (.vstr k.name) = none → k.default ≠ .vnone →
      k.pop data =
        (some (k.get_name, k.trafaret k.default),
         vremove data (.vstr k.name))) := by
  constructor
  · decide
  · intro k data hmiss hdef
    simp [TKey.pop, hmiss, hdef]

/-- Witness for C6's general part: the defaulted renamed key
`Key('bar', default='nyanya') >> 'baz'` popped from an empty input
validates its default through `String` and reports it under `'baz'`. -/
theorem dict_default_renamed_check_witness :
    barDefK.pop [] = (some ("baz", .ok (.vstr "nyanya")), []) := by
  have h := dict_default_renamed_check.2 barDefK [] rfl (by decide)
  exact h

/-!  Converter-pipeline lemmas (for C8). -/

theorem appendAll_some (cs : List (Value → Value)) :
    ∀ (t : Traf) (cs0 : List (Value → Value)), t.converters = some cs0 →
    t.appendAll cs = { t with converters := some (cs0 ++ cs) } := by
  induction cs with
  | nil =>
    intro t cs0 h
    obtain ⟨b, cv, cvs⟩ := t
    simp only at h
    subst h
    simp [Traf.appendAll]
  | cons c rest ih =>
    intro t cs0 h
    obtain ⟨b, cv, cvs⟩ := t
    simp only at h
    subst h
    have h2 : Traf.appendAll ⟨b, cv, some cs0⟩ (c :: rest) =
        Traf.appendAll ⟨b, cv, some (cs0 ++ [c])⟩ rest := by
      simp [Traf.appendAll, Traf.append]
    rw [h2, ih ⟨b, cv, some (cs0 ++ [c])⟩ (cs0 ++ [c]) rfl]
    simp

theorem appendAll_none (t : Traf) (ht : t.converters = none)
    (c : Value → Value) (rest : List (Value → Value)) :
    t.appendAll (c :: rest) = { t with converters := some (c :: rest) } := by
  obtain ⟨b, cv, cvs⟩ := t
  simp only at ht
  subst ht
  have h2 : Traf.appendAll ⟨b, cv, none⟩ (c :: rest) =
      Traf.appendAll ⟨b, cv, some [c]⟩ rest := by
    simp [Traf.appendAll, Traf.append]
  rw [h2, appendAll_some rest ⟨b, cv, some [c]⟩ [c] rfl]
  simp

/-- Claim C8: on a validator with no previously-set converters, a chain
of `append`s makes `check` run exactly those converters, in
registration order, each on the previous stage's output (the `foldl`
in `applyConverters`), returning the last converter's result; when the
core validation fails, the error is returned untouched and no
converter affects the outcome. -/
theorem converters_applied_in_order_on_success (t : Traf)
    (ht : t.converters = none) (cs : List (Value → Value)) (hcs : cs ≠ [])
    (v : Value) :
    (∀ r, t.baseCheck v = .ok r →
      (t.appendAll cs).check v = .ok (applyConverters cs r)) ∧
    (∀ e, t.baseCheck v = .error e →
      (t.appendAll cs).check v = .error e) := by
  obtain ⟨c, rest, rfl⟩ : ∃ c rest, cs = c :: rest := by
    cases cs with
    | nil => exact absurd rfl hcs
    | cons c rest => exact ⟨c, rest, rfl⟩
  have hA := appendAll_none t ht c rest
  constructor
  · intro r hr
    rw [hA]
    simp [Traf.check, hr, Traf.convertV]
  · intro e he
    rw [hA]
    simp [Traf.check, he]

/-- Witness for C8: `Int() >> (x+1) >> (x*2)` on `3` returns `8`
(both converters ran once, in order). -/
theorem converters_applied_in_order_on_success_witness :
    ((mkTraf intCheck).appendAll [incConv, dblConv]).check (.vint 3) =
      .ok (.vint 8) := by
  have h := (converters_applied_in_order_on_success (mkTraf intCheck) rfl
    [incConv, dblConv] (by simp) (.vint 3)).1 (.vint 3) rfl
  simpa [applyConverters, incConv, dblConv, intOf] using h

/-!  `Or` loop lemmas (for C3). -/

theorem orCheck_eq (ts : List Check) (v : Value) :
    orCheck ts v = orLoop v ts 0 [] := by
  rw [orCheck, mkTraf_check]
  rfl

theorem orLoop_skips_after_success (v r : Value) (t : Check)
    (ts2 : List Check) :
    ∀ (ts1 : List Check) (i : Nat) (errs : List (Value × DErr)),
    (∀ t' ∈ ts1, ∃ e, t' v = .error e) → t v = .ok r →
    orLoop v (ts1 ++ t :: ts2) i errs = .ok r := by
  intro ts1
  induction ts1 with
  | nil =>
    intro i errs hfail hok
    simp [orLoop, hok]
  | cons t0 rest ih =>
    intro i errs hfail hok
    obtain ⟨e, he⟩ := hfail t0 (List.mem_cons_self t0 rest)
    have step := ih (i + 1) (errs ++ [(.vint i, e)])
      (fun t' ht' => hfail t' (List.mem_cons_of_mem t0 ht')) hok
    rw [List.cons_append]
    simpa [orLoop, he] using step

theorem orLoop_all_fail (v : Value) :
    ∀ (ts : List Check) (i : Nat) (errs0 : List (Value × DErr)),
    (∀ t ∈ ts, ∃ e, t v = .error e) →
    ∃ errs, orLoop v ts i errs0 = .error (.branch (errs0 ++ errs)) ∧
      errs.length = ts.length ∧
      (∀ j (hj : j < errs.length), (errs.get ⟨j, hj⟩).1 = .vint (i + j)) ∧
      (∀ j (hj : j < errs.length) (hj2 : j < ts.length),
        (ts.get ⟨j, hj2⟩) v = .error (errs.get ⟨j, hj⟩).2) := by
  intro ts
  induction ts with
  | nil =>
    intro i errs0 h
    refine ⟨[], by simp [orLoop], rfl, ?_, ?_⟩
    · intro j hj
      simp at hj
    · intro j hj
      simp at hj
  | cons t rest ih =>
    intro i errs0 h
    obtain ⟨e, he⟩ := h t (List.mem_cons_self t rest)
    obtain ⟨errs', h1, h2, h3, h4⟩ :=
      ih (i + 1) (errs0 ++ [(.vint i, e)])
        (fun t' ht' => h t' (List.mem_cons_of_mem t ht'))
    refine ⟨(.vint i, e) :: errs', ?_, by simp [h2], ?_, ?_⟩
    · have hstep : orLoop v (t :: rest) i errs0 =
          orLoop v rest (i + 1) (errs0 ++ [(.vint i, e)]) := by
        simp [orLoop, he]
      rw [hstep, h1]
      congr 1
      congr 1
      simp
    · intro j hj
      cases j with
      | zero => simp
      | succ j' =>
        have hj' : j' < errs'.length := by simpa using hj
        have h3' := h3 j' hj'
        rw [List.get_cons_succ, h3']
        simp only [Value.vint.injEq]
        push_cast
        omega
    · intro j hj hj2
      cases j with
      | zero => simpa using he
      | succ j' =>
        have hj2' : j' < rest.length := by simpa using hj2
        have hj' : j' < errs'.length := by simpa using hj
        simpa using h4 j' hj' hj2'

/-- Claim C3: `Or.check` evaluates children strictly in declaration
order, returning the first success — the trailing children play no
role in the result (swapping them for anything else changes nothing);
if every child fails, the result is a branch error keyed exactly by
the children's 0-based declaration positions, each holding that
child's error. -/
theorem or_first_success_wins_else_all_errors :
    (∀ (ts1 : List Check) (t : Check) (ts2 ts2' : List Check) (v r : Value),
      (∀ t' ∈ ts1, ∃ e, t' v = .error e) → t v = .ok r →
      orCheck (ts1 ++ t :: ts2) v = .ok r ∧
      orCheck (ts1 ++ t :: ts2) v = orCheck (ts1 ++ t :: ts2') v) ∧
    (∀ (ts : List Check) (v : Value), ts ≠ [] →
      (∀ t ∈ ts, ∃ e, t v = .error e) →
      ∃ errs, orCheck ts v = .error (.branch errs) ∧
        errs.length = ts.length ∧
        (∀ j (hj : j < errs.length), (errs.get ⟨j, hj⟩).1 = .vint j) ∧
        (∀ j (hj : j < errs.length) (hj2 : j < ts.length),
          (ts.get ⟨j, hj2⟩) v = .error (errs.get ⟨j, hj⟩).2)) := by
  constructor
  · intro ts1 t ts2 ts2' v r hfail hok
    have e1 := orLoop_skips_after_success v r t ts2 ts1 0 [] hfail hok
    have e2 := orLoop_skips_after_success v r t ts2' ts1 0 [] hfail hok
    rw [orCheck_eq, orCheck_eq]
    exact ⟨e1, by rw [e1, e2]⟩
  · intro ts v hne h
    obtain ⟨errs, h1, h2, h3, h4⟩ := orLoop_all_fail v ts 0 [] h
    refine ⟨errs, ?_, h2, ?_, h4⟩
    · rw [orCheck_eq, h1]
      simp
    · intro j hj
      have := h3 j hj
      simpa using this

/-- Witness for C3, from the `Or(String, Null)` doctest: a string input
succeeds via the first child; the input `1` fails both children giving
a branch keyed `{0, 1}` with each child's error. -/
theorem or_first_success_wins_else_all_errors_witness :
    orCheck [stringCheck, nullCheck] (.vstr "test") = .ok (.vstr "test") ∧
    orCheck [stringCheck, nullCheck] (.vint 1) =
      .error (.branch [(.vint 0, .leaf "value is not string"),
                       (.vint 1, .leaf "value should be None")]) := by
  constructor
  · have h := (or_first_success_wins_else_all_errors.1 [] stringCheck
      [nullCheck] [] (.vstr "test") (.vstr "test") (by simp) rfl).1
    exact h
  · have h := or_first_success_wins_else_all_errors.2
      [stringCheck, nullCheck] (.vint 1) (by simp)
      (by
        intro t ht
        simp at ht
        rcases ht with rfl | rfl
        · exact ⟨.leaf "value is not string", rfl⟩
        · exact ⟨.leaf "value should be None", rfl⟩)
    decide

/-!  `List` loop lemmas (for C4). -/

theorem listCheck_eq (t : Check) (a : Nat) (b : Option Nat) (v : Value) :
    listCheck t a b v = listCheckVal t a b v := by
  rw [listCheck, mkTraf_check]

theorem listLoop_all_ok (t : Check) :
    ∀ (xs : List Value) (i : Nat), (∀ x ∈ xs, ∃ r, t x = .ok r) →
    ∃ ys, listLoop t xs i = (ys, []) ∧ ys.length = xs.length ∧
      ∀ j (hj : j < xs.length) (hj2 : j < ys.length),
        t (xs.get ⟨j, hj⟩) = .ok (ys.get ⟨j, hj2⟩) := by
  intro xs
  induction xs with
  | nil =>
    intro i h
    refine ⟨[], rfl, rfl, ?_⟩
    intro j hj
    simp at hj
  | cons x rest ih =>
    intro i h
    obtain ⟨r, hr⟩ := h x (List.mem_cons_self x rest)
    obtain ⟨ys', hy1, hy2, hy3⟩ :=
      ih (i + 1) (fun y hy => h y (List.mem_cons_of_mem x hy))
    refine ⟨r :: ys', by simp [listLoop, hr, hy1], by simp [hy2], ?_⟩
    intro j hj hj2
    cases j with
    | zero => simpa using hr
    | succ j' =>
      have hjr : j' < rest.length := by simpa using hj
      have hjy : j' < ys'.length := by simpa using hj2
      simpa [List.get_cons_succ] using hy3 j' hjr hjy

theorem listLoop_mem_iff (t : Check) :
    ∀ (xs : List Value) (i0 : Nat) (q : Value × DErr),
    q ∈ (listLoop t xs i0).2 ↔
      ∃ k, ∃ hk : k < xs.length, q.1 = .vint (i0 + k) ∧
        t (xs.get ⟨k, hk⟩) = .error q.2 := by
  intro xs
  induction xs with
  | nil =>
    intro i0 q
    simp [listLoop]
  | cons x rest ih =>
    intro i0 q
    cases hx : t x with
    | ok r =>
      have hstep : (listLoop t (x :: rest) i0).2 =
          (listLoop t rest (i0 + 1)).2 := by
        simp [listLoop, hx]
      rw [hstep, ih (i0 + 1) q]
      constructor
      · rintro ⟨k, hk, h1, h2⟩
        refine ⟨k + 1, by simp only [List.length_cons]; omega, ?_, ?_⟩
        · rw [h1]
          congr 1
          push_cast
          omega
        · simpa [List.get_cons_succ] using h2
      · rintro ⟨k, hk, h1, h2⟩
        cases k with
        | zero => simp [hx] at h2
        | succ k' =>
          have hk' : k' < rest.length := by
            simp only [List.length_cons] at hk
            omega
          refine ⟨k', hk', ?_, ?_⟩
          · rw [h1]
            congr 1
            push_cast
            omega
          · simpa [List.get_cons_succ] using h2
    | error e =>
      have hstep : (listLoop t (x :: rest) i0).2 =
          (.vint i0, e) :: (listLoop t rest (i0 + 1)).2 := by
        simp [listLoop, hx]
      rw [hstep]
      simp only [List.mem_cons]
      rw [ih (i0 + 1) q]
      constructor
      · rintro (rfl | ⟨k, hk, h1, h2⟩)
        · refine ⟨0, by simp, by simp, by simpa using hx⟩
        · refine ⟨k + 1, by simp only [List.length_cons]; omega, ?_, ?_⟩
          · rw [h1]
            congr 1
            push_cast
            omega
          · simpa [List.get_cons_succ] using h2
      · rintro ⟨k, hk, h1, h2⟩
        cases k with
        | zero =>
          left
          have hgx : (x :: rest).get ⟨0, hk⟩ = x := rfl
          rw [hgx, hx] at h2
          have he2 := Except.error.inj h2
          exact Prod.ext (by simpa using h1) he2.symm
        | succ k' =>
          right
          have hk' : k' < rest.length := by
            simp only [List.length_cons] at hk
            omega
          refine ⟨k', hk', ?_, by simpa [List.get_cons_succ] using h2⟩
          rw [h1]
          congr 1
          push_cast
          omega

/-- Claim C4: within the length bounds, `List.check` validates every
element (no short-circuit at the first failure); if no element fails
it returns the converted elements in order; if any element fails, the
whole call fails with a branch error whose entries are keyed exactly
by the 0-based indices of the failing elements (each holding that
element's error), and no partial output is produced. -/
theorem list_reports_all_failing_indices (t : Check) (min_length : Nat)
    (max_length : Option Nat) (xs : List Value)
    (hmin : ¬ xs.length < min_length)
    (hmax : ∀ m, max_length = some m → ¬ xs.length > m) :
    ((∀ x ∈ xs, ∃ r, t x = .ok r) →
      ∃ ys, listCheck t min_length max_length (.vlist xs) = .ok (.vlist ys) ∧
        ys.length = xs.length ∧
        ∀ j (hj : j < xs.length) (hj2 : j < ys.length),
          t (xs.get ⟨j, hj⟩) = .ok (ys.get ⟨j, hj2⟩)) ∧
    ((∃ x ∈ xs, ∃ e, t x = .error e) →
      ∃ errs, listCheck t min_length max_length (.vlist xs) =
          .error (.branch errs) ∧
        (∀ q ∈ errs, ∃ n : Nat, ∃ e, q = (.vint n, e)) ∧
        (∀ (n : Nat) (e : DErr), ((.vint n : Value), e) ∈ errs ↔
          ∃ hn : n < xs.length, t (xs.get ⟨n, hn⟩) = .error e)) := by
  have hred : listCheck t min_length max_length (.vlist xs) =
      listElems t xs := by
    rw [listCheck_eq]
    simp only [listCheckVal]
    rw [if_neg hmin]
    cases max_length with
    | none => rfl
    | some m =>
      have hgt := hmax m rfl
      simp [hgt]
  constructor
  · intro hok
    obtain ⟨ys, hy1, hy2, hy3⟩ := listLoop_all_ok t xs 0 hok
    refine ⟨ys, ?_, hy2, hy3⟩
    rw [hred]
    simp [listElems, hy1]
  · rintro ⟨x, hx, e, he⟩
    obtain ⟨⟨k, hk⟩, hget⟩ := List.mem_iff_get.mp hx
    have hmem : ((.vint (0 + k) : Value), e) ∈ (listLoop t xs 0).2 := by
      rw [listLoop_mem_iff]
      exact ⟨k, hk, rfl, by rw [hget]; exact he⟩
    have hne : (listLoop t xs 0).2 ≠ [] := by
      intro hnil
      rw [hnil] at hmem
      simp at hmem
    refine ⟨(listLoop t xs 0).2, ?_, ?_, ?_⟩
    · rw [hred]
      cases h2 : (listLoop t xs 0).2 with
      | nil => exact absurd h2 hne
      | cons a as => simp [listElems, h2]
    · intro q hq
      rw [listLoop_mem_iff] at hq
      obtain ⟨k', hk', h1, h2⟩ := hq
      exact ⟨0 + k', q.2, Prod.ext h1 rfl⟩
    · intro n e'
      rw [listLoop_mem_iff]
      constructor
      · rintro ⟨k', hk', h1, h2⟩
        have hcast : (n : Int) = ((0 + k' : Nat) : Int) := Value.vint.inj h1
        have hnk : n = k' := by
          push_cast at hcast
          omega
        subst hnk
        exact ⟨hk', h2⟩
      · rintro ⟨hn, h2⟩
        exact ⟨n, hn, by simp, h2⟩

/-- Witness for C4, the §8 example: `[1, "x", 2, "y"]` against a
list-of-integers schema fails with leaf errors keyed exactly
`{1, 3}`. -/
theorem list_reports_all_failing_indices_witness :
    listCheck intCheck 0 none
      (.vlist [.vint 1, .vstr "x", .vint 2, .vstr "y"]) =
    .error (.branch [(.vint 1, .leaf "value can't be converted to int"),
                     (.vint 3, .leaf "value can't be converted to int")]) := by
  have h := (list_reports_all_failing_indices intCheck 0 none
    [.vint 1, .vstr "x", .vint 2, .vstr "y"] (by simp)
    (by intro m hm; exact Option.noConfusion hm)).2
    ⟨.vstr "x", by simp, .leaf "value can't be converted to int", by decide⟩
  decide

/-!  `Mapping` fold lemmas (for C5). -/

theorem mem_dinsert {α : Type} (l : List (Value × α)) (k : Value) (v : α)
    (q : Value × α) (h : q ∈ dinsert l k v) : q ∈ l ∨ q = (k, v) := by
  induction l with
  | nil => simpa [dinsert] using h
  | cons p rest ih =>
    obtain ⟨pk, pv⟩ := p
    by_cases hp : pk = k
    · rw [dinsert, if_pos hp] at h
      rcases List.mem_cons.1 h with h1 | h2
      · exact Or.inr h1
      · exact Or.inl (List.mem_cons_of_mem _ h2)
    · rw [dinsert, if_neg hp] at h
      rcases List.mem_cons.1 h with h1 | h2
      · exact Or.inl (h1 ▸ List.mem_cons_self _ _)
      · rcases ih h2 with h3 | h4
        · exact Or.inl (List.mem_cons_of_mem _ h3)
        · exact Or.inr h4

theorem mappingFold_errors_untouched (kt vt : Check) :
    ∀ (entries : List (Value × Value))
      (acc : List (Value × Value) × List (Value × DErr)) (x : Value),
    (∀ p ∈ entries, p.1 ≠ x) →
    alookup (entries.foldl (mappingStep kt vt) acc).2 x = alookup acc.2 x := by
  intro entries
  induction entries with
  | nil =>
    intro acc x h
    rfl
  | cons p rest ih =>
    intro acc x h
    have hp := h p (List.mem_cons_self p rest)
    have hrest := fun q hq => h q (List.mem_cons_of_mem p hq)
    rw [List.foldl_cons]
    cases hk : kt p.1 with
    | ok a =>
      cases hv : vt p.2 with
      | ok b =>
        simp only [mappingStep, hk, hv]
        exact ih _ x hrest
      | error ev =>
        simp only [mappingStep, hk, hv]
        rw [ih _ x hrest]
        exact alookup_dinsert_ne _ _ _ _ (Ne.symm hp)
    | error ek =>
      cases hv : vt p.2 with
      | ok b =>
        simp only [mappingStep, hk, hv]
        rw [ih _ x hrest]
        exact alookup_dinsert_ne _ _ _ _ (Ne.symm hp)
      | error ev =>
        simp only [mappingStep, hk, hv]
        rw [ih _ x hrest]
        exact alookup_dinsert_ne _ _ _ _ (Ne.symm hp)

theorem mappingFold_errors_entry (kt vt : Check) :
    ∀ (entries : List (Value × Value))
      (acc : List (Value × Value) × List (Value × DErr)) (p : Value × Value),
    p ∈ entries → (entries.map Prod.fst).Nodup →
    alookup (entries.foldl (mappingStep kt vt) acc).2 p.1 =
      (match kt p.1, vt p.2 with
       | .ok _, .ok _ => alookup acc.2 p.1
       | .ok _, .error ev => some (.branch [(.vstr "value", ev)])
       | .error ek, .ok _ => some (.branch [(.vstr "key", ek)])
       | .error ek, .error ev =>
         some (.branch [(.vstr "key", ek), (.vstr "value", ev)])) := by
  intro entries
  induction entries with
  | nil =>
    intro acc p hp
    exact absurd hp (List.not_mem_nil p)
  | cons q rest ih =>
    intro acc p hp hnd
    simp only [List.map_cons, List.nodup_cons] at hnd
    have hnd' : (rest.map Prod.fst).Nodup := hnd.2
    have hqnot : ∀ w ∈ rest, w.1 ≠ q.1 := by
      intro w hw heq
      exact absurd (heq ▸ List.mem_map_of_mem Prod.fst hw) hnd.1
    rw [List.foldl_cons]
    rcases List.mem_cons.1 hp with rfl | hprest
    · cases hk : kt p.1 with
      | ok a =>
        cases hv : vt p.2 with
        | ok b =>
          simp only [mappingStep, hk, hv]
          rw [mappingFold_errors_untouched kt vt rest _ _ hqnot]
        | error ev =>
          simp only [mappingStep, hk, hv]
          rw [mappingFold_errors_untouched kt vt rest _ _ hqnot]
          exact alookup_dinsert_self _ _ _
      | error ek =>
        cases hv : vt p.2 with
        | ok b =>
          simp only [mappingStep, hk, hv]
          rw [mappingFold_errors_untouched kt vt rest _ _ hqnot]
          exact alookup_dinsert_self _ _ _
        | error ev =>
          simp only [mappingStep, hk, hv]
          rw [mappingFold_errors_untouched kt vt rest _ _ hqnot]
          exact alookup_dinsert_self _ _ _
    · have hpq : p.1 ≠ q.1 := hqnot p hprest
      rw [ih _ p hprest hnd']
      cases hk : kt p.1 with
      | ok a =>
        cases hv : vt p.2 with
        | ok b =>
          simp only [hk, hv]
          cases hqk : kt q.1 with
          | ok a2 =>
            cases hqv : vt q.2 with
            | ok b2 => simp only [mappingStep, hqk, hqv]
            | error ev2 =>
              simp only [mappingStep, hqk, hqv]
              exact alookup_dinsert_ne _ _ _ _ hpq
          | error ek2 =>
            cases hqv : vt q.2 with
            | ok b2 =>
              simp only [mappingStep, hqk, hqv]
              exact alookup_dinsert_ne _ _ _ _ hpq
            | error ev2 =>
              simp only [mappingStep, hqk, hqv]
              exact alookup_dinsert_ne _ _ _ _ hpq
        | error ev => simp only [hk, hv]
      | error ek =>
        cases hv : vt p.2 with
        | ok b => simp only [hk, hv]
        | error ev => simp only [hk, hv]

theorem mappingFold_all_ok (kt vt : Check) :
    ∀ (entries : List (Value × Value))
      (acc : List (Value × Value) × List (Value × DErr)),
    (∀ p ∈ entries, (∃ a, kt p.1 = .ok a) ∧ (∃ b, vt p.2 = .ok b)) →
    (entries.foldl (mappingStep kt vt) acc).2 = acc.2 := by
  intro entries
  induction entries with
  | nil =>
    intro acc h
    rfl
  | cons p rest ih =>
    intro acc h
    obtain ⟨⟨a, ha⟩, ⟨b, hb⟩⟩ := h p (List.mem_cons_self p rest)
    rw [List.foldl_cons]
    simp only [mappingStep, ha, hb]
    exact ih _ (fun q hq => h q (List.mem_cons_of_mem p hq))

theorem mappingFold_collect_untouched (kt vt : Check) :
    ∀ (entries : List (Value × Value))
      (acc : List (Value × Value) × List (Value × DErr)) (x : Value),
    (∀ p ∈ entries, ∀ ck, kt p.1 = .ok ck → ck ≠ x) →
    alookup (entries.foldl (mappingStep kt vt) acc).1 x = alookup acc.1 x := by
  intro entries
  induction entries with
  | nil =>
    intro acc x h
    rfl
  | cons p rest ih =>
    intro acc x h
    have hrest := fun q hq => h q (List.mem_cons_of_mem p hq)
    rw [List.foldl_cons]
    cases hk : kt p.1 with
    | ok a =>
      cases hv : vt p.2 with
      | ok b =>
        simp only [mappingStep, hk, hv]
        rw [ih _ x hrest]
        exact alookup_dinsert_ne _ _ _ _
          (Ne.symm (h p (List.mem_cons_self p rest) a hk))
      | error ev =>
        simp only [mappingStep, hk, hv]
        exact ih _ x hrest
    | error ek =>
      cases hv : vt p.2 with
      | ok b =>
        simp only [mappingStep, hk, hv]
        exact ih _ x hrest
      | error ev =>
        simp only [mappingStep, hk, hv]
        exact ih _ x hrest

theorem mappingFold_collect_entry (kt vt : Check) :
    ∀ (entries : List (Value × Value))
      (acc : List (Value × Value) × List (Value × DErr))
      (p : Value × Value) (ck cv : Value),
    p ∈ entries → kt p.1 = .ok ck → vt p.2 = .ok cv →
    (entries.map (fun w => kt w.1)).Nodup →
    alookup (entries.foldl (mappingStep kt vt) acc).1 ck = some cv := by
  intro entries
  induction entries with
  | nil =>
    intro acc p ck cv hp
    exact absurd hp (List.not_mem_nil p)
  | cons q rest ih =>
    intro acc p ck cv hp hck hcv hnd
    simp only [List.map_cons, List.nodup_cons] at hnd
    rw [List.foldl_cons]
    rcases List.mem_cons.1 hp with rfl | hprest
    · simp only [mappingStep, hck, hcv]
      rw [mappingFold_collect_untouched kt vt rest _ ck ?_]
      · exact alookup_dinsert_self _ _ _
      · intro w hw ck2 hck2 heq
        have hmem : kt p.1 ∈ rest.map (fun w => kt w.1) := by
          rw [hck, ← heq, ← hck2]
          exact List.mem_map_of_mem _ hw
        exact absurd hmem hnd.1
    · exact ih _ p ck cv hprest hck hcv hnd.2

theorem mappingFold_collect_from (kt vt : Check) :
    ∀ (entries : List (Value × Value))
      (acc : List (Value × Value) × List (Value × DErr)) (q : Value × Value),
    q ∈ (entries.foldl (mappingStep kt vt) acc).1 →
    q ∈ acc.1 ∨ ∃ p ∈ entries, kt p.1 = .ok q.1 ∧ vt p.2 = .ok q.2 := by
  intro entries
  induction entries with
  | nil =>
    intro acc q hq
    exact Or.inl hq
  | cons w rest ih =>
    intro acc q hq
    rw [List.foldl_cons] at hq
    cases hk : kt w.1 with
    | ok a =>
      cases hv : vt w.2 with
      | ok b =>
        simp only [mappingStep, hk, hv] at hq
        rcases ih _ q hq with h1 | h2
        · rcases mem_dinsert _ _ _ q h1 with h3 | rfl
          · exact Or.inl h3
          · exact Or.inr ⟨w, List.mem_cons_self w rest, hk, hv⟩
        · obtain ⟨p, hp, hh⟩ := h2
          exact Or.inr ⟨p, List.mem_cons_of_mem w hp, hh⟩
      | error ev =>
        simp only [mappingStep, hk, hv] at hq
        rcases ih _ q hq with h1 | h2
        · exact Or.inl h1
        · obtain ⟨p, hp, hh⟩ := h2
          exact Or.inr ⟨p, List.mem_cons_of_mem w hp, hh⟩
    | error ek =>
      cases hv : vt w.2 with
      | ok b =>
        simp only [mappingStep, hk, hv] at hq
        rcases ih _ q hq with h1 | h2
        · exact Or.inl h1
        · obtain ⟨p, hp, hh⟩ := h2
          exact Or.inr ⟨p, List.mem_cons_of_mem w hp, hh⟩
      | error ev =>
        simp only [mappingStep, hk, hv] at hq
        rcases ih _ q hq with h1 | h2
        · exact Or.inl h1
        · obtain ⟨p, hp, hh⟩ := h2
          exact Or.inr ⟨p, List.mem_cons_of_mem w hp, hh⟩

/-- Claim C5: `Mapping` validates every entry's key and value
independently (both always attempted — a failing entry's branch error
carries the value error alongside the key error and vice versa),
reports failing entries under the *original* input key with child
errors keyed `'key'`/`'value'`, leaves clean entries out of the error
branch, and on full success builds the output mapping from each
*validated* key to its validated value. -/
theorem mapping_validates_keys_and_values_independently
    (kt vt : Check) (entries : List (Value × Value))
    (hnd : (entries.map Prod.fst).Nodup) :
    ((∀ p ∈ entries, (∃ a, kt p.1 = .ok a) ∧ (∃ b, vt p.2 = .ok b)) →
      (entries.map (fun w => kt w.1)).Nodup →
      ∃ out, mappingCheckVal kt vt entries = .ok (.vdict out) ∧
        (∀ p ∈ entries, ∀ ck cv, kt p.1 = .ok ck → vt p.2 = .ok cv →
          alookup out ck = some cv) ∧
        (∀ q ∈ out, ∃ p ∈ entries, kt p.1 = .ok q.1 ∧ vt p.2 = .ok q.2)) ∧
    ((∃ p ∈ entries,
        (∃ ek, kt p.1 = .error ek) ∨ (∃ ev, vt p.2 = .error ev)) →
      ∃ errs, mappingCheckVal kt vt entries = .error (.branch errs) ∧
        (∀ p ∈ entries,
          (∀ ek ev, kt p.1 = .error ek → vt p.2 = .error ev →
            alookup errs p.1 =
              some (.branch [(.vstr "key", ek), (.vstr "value", ev)])) ∧
          (∀ ek b, kt p.1 = .error ek → vt p.2 = .ok b →
            alookup errs p.1 = some (.branch [(.vstr "key", ek)])) ∧
          (∀ a ev, kt p.1 = .ok a → vt p.2 = .error ev →
            alookup errs p.1 = some (.branch [(.vstr "value", ev)])) ∧
          (∀ a b, kt p.1 = .ok a → vt p.2 = .ok b →
            alookup errs p.1 = none))) := by
  constructor
  · intro hok hndk
    have hE := mappingFold_all_ok kt vt entries ([], []) hok
    refine ⟨(entries.foldl (mappingStep kt vt) ([], [])).1, ?_, ?_, ?_⟩
    · simp [mappingCheckVal, hE]
    · intro p hp ck cv hck hcv
      exact mappingFold_collect_entry kt vt entries ([], []) p ck cv hp hck
        hcv hndk
    · intro q hq
      rcases mappingFold_collect_from kt vt entries ([], []) q hq with h1 | h2
      · simp at h1
      · exact h2
  · rintro ⟨p0, hp0, hfail⟩
    have hentry := mappingFold_errors_entry kt vt entries ([], []) p0 hp0 hnd
    have hsome : ∃ d,
        alookup (entries.foldl (mappingStep kt vt) ([], [])).2 p0.1 =
          some d := by
      rcases hfail with ⟨ek, hek⟩ | ⟨ev, hev⟩
      · cases hv0 : vt p0.2 with
        | ok b =>
          refine ⟨.branch [(.vstr "key", ek)], ?_⟩
          rw [hentry]
          simp [hek, hv0]
        | error ev2 =>
          refine ⟨.branch [(.vstr "key", ek), (.vstr "value", ev2)], ?_⟩
          rw [hentry]
          simp [hek, hv0]
      · cases hk0 : kt p0.1 with
        | ok a =>
          refine ⟨.branch [(.vstr "value", ev)], ?_⟩
          rw [hentry]
          simp [hk0, hev]
        | error ek2 =>
          refine ⟨.branch [(.vstr "key", ek2), (.vstr "value", ev)], ?_⟩
          rw [hentry]
          simp [hk0, hev]
    obtain ⟨d, hd⟩ := hsome
    have hne :
        (entries.foldl (mappingStep kt vt) ([], [])).2.isEmpty = false :=
      alookup_some_not_isEmpty _ _ _ hd
    refine ⟨(entries.foldl (mappingStep kt vt) ([], [])).2, ?_, ?_⟩
    · simp [mappingCheckVal, hne]
    · intro p hp
      have he := mappingFold_errors_entry kt vt entries ([], []) p hp hnd
      refine ⟨?_, ?_, ?_, ?_⟩
      · intro ek ev h1 h2
        rw [he]
        simp [h1, h2]
      · intro ek b h1 h2
        rw [he]
        simp [h1, h2]
      · intro a ev h1 h2
        rw [he]
        simp [h1, h2]
      · intro a b h1 h2
        rw [he]
        simp [h1, h2, alookup]

/-- Witness for C5, from the `Mapping(String, Int)` doctest: the entry
`2: "bar"` fails both key and value validation and both errors are
reported under the original key `2`. -/
theorem mapping_validates_keys_and_values_independently_witness :
    mappingCheckVal stringCheck intCheck
      [(.vstr "foo", .vint 1), (.vint 2, .vstr "bar")] =
    .error (.branch [(.vint 2,
      .branch [(.vstr "key", .leaf "value is not string"),
               (.vstr "value", .leaf "value can't be converted to int")])]) := by
  have h := (mapping_validates_keys_and_values_independently stringCheck
    intCheck [(.vstr "foo", .vint 1), (.vint 2, .vstr "bar")] (by decide)).2
    ⟨(.vint 2, .vstr "bar"), by decide,
     Or.inl ⟨.leaf "value is not string", by decide⟩⟩
  decide

/-!  `Dict` pass lemmas (for C1). -/

theorem vstr_ne (a b : String) (h : a ≠ b) : (Value.vstr a : Value) ≠ .vstr b :=
  fun hh => h (Value.vstr.inj hh)

/-- The four possible outcomes of one `Key.pop` step inside
`Dict._check_val`'s first pass: a present-or-defaulted value
validating (inserted into `collect` under the target name), the same
failing (inserted into `errors` under the target name), a missing
required key (`'is required'` into `errors` under the source name), or
a missing optional key (no contribution). -/
theorem keysPass_cons (k : TKey) (ks : List TKey)
    (data collect : List (Value × Value)) (errors : List (Value × DErr)) :
    (∃ v, keysPass (k :: ks) data collect errors =
        keysPass ks (vremove data (.vstr k.name))
          (dinsert collect (.vstr k.get_name) v) errors ∧
      k.trafaret ((alookup data (.vstr k.name)).getD k.default) = .ok v ∧
      ((alookup data (.vstr k.name)).isSome ∨ k.default ≠ .vnone)) ∨
    (∃ er, keysPass (k :: ks) data collect errors =
        keysPass ks (vremove data (.vstr k.name)) collect
          (dinsert errors (.vstr k.get_name) er) ∧
      k.trafaret ((alookup data (.vstr k.name)).getD k.default) = .error er ∧
      ((alookup data (.vstr k.name)).isSome ∨ k.default ≠ .vnone)) ∨
    (alookup data (.vstr k.name) = none ∧ k.default = .vnone ∧
      ¬ k.optional ∧
      keysPass (k :: ks) data collect errors =
        keysPass ks data collect
          (dinsert errors (.vstr k.name) (.leaf "is required"))) ∨
    (alookup data (.vstr k.name) = none ∧ k.default = .vnone ∧ k.optional ∧
      keysPass (k :: ks) data collect errors =
        keysPass ks data collect errors) := by
  by_cases hcond : (alookup data (.vstr k.name)).isSome ∨ k.default ≠ .vnone
  · have hpop : k.pop data =
        (some (k.get_name,
          k.trafaret ((alookup data (.vstr k.name)).getD k.default)),
         vremove data (.vstr k.name)) := by
      simp [TKey.pop, hcond]
    cases hres : k.trafaret ((alookup data (.vstr k.name)).getD k.default) with
    | ok v =>
      left
      rw [hres] at hpop
      exact ⟨v, by simp only [keysPass, hpop], rfl, hcond⟩
    | error er =>
      right
      left
      rw [hres] at hpop
      exact ⟨er, by simp only [keysPass, hpop], rfl, hcond⟩
  · obtain ⟨h1, h2⟩ := not_or.1 hcond
    have hmiss : alookup data (.vstr k.name) = none := by
      cases hl : alookup data (.vstr k.name) with
      | none => rfl
      | some w => exact absurd (by simp [hl]) h1
    have hdef : k.default = .vnone := by
      by_contra hd
      exact h2 hd
    by_cases hopt : k.optional
    · right
      right
      right
      refine ⟨hmiss, hdef, hopt, ?_⟩
      have hpop : k.pop data = (none, data) := by
        simp only [TKey.pop]
        rw [if_neg hcond, if_neg (not_not_intro hopt)]
      simp only [keysPass, hpop]
    · right
      right
      left
      refine ⟨hmiss, hdef, hopt, ?_⟩
      have hpop : k.pop data =
          (some (k.name, .error (.leaf "is required")), data) := by
        simp only [TKey.pop]
        rw [if_neg hcond, if_pos hopt]
      simp only [keysPass, hpop]

theorem keysPass_errors_untouched :
    ∀ (ks : List TKey) (data collect : List (Value × Value))
      (errors : List (Value × DErr)) (n : Value),
    (∀ k ∈ ks, Value.vstr k.name ≠ n ∧ Value.vstr k.get_name ≠ n) →
    alookup (keysPass ks data collect errors).2.2 n = alookup errors n := by
  intro ks
  induction ks with
  | nil =>
    intro data collect errors n h
    rfl
  | cons k ks ih =>
    intro data collect errors n h
    obtain ⟨hname, hgname⟩ := h k (List.mem_cons_self k ks)
    have hrest := fun k2 hk2 => h k2 (List.mem_cons_of_mem k hk2)
    rcases keysPass_cons k ks data collect errors with
      ⟨v, heq, _, _⟩ | ⟨er, heq, _, _⟩ | ⟨_, _, _, heq⟩ | ⟨_, _, _, heq⟩
    · rw [heq]
      exact ih _ _ _ n hrest
    · rw [heq, ih _ _ _ n hrest]
      exact alookup_dinsert_ne _ _ _ _ (Ne.symm hgname)
    · rw [heq, ih _ _ _ n hrest]
      exact alookup_dinsert_ne _ _ _ _ (Ne.symm hname)
    · rw [heq]
      exact ih _ _ _ n hrest

theorem keysPass_data_none :
    ∀ (ks : List TKey) (data collect : List (Value × Value))
      (errors : List (Value × DErr)) (n : Value),
    alookup data n = none →
    alookup (keysPass ks data collect errors).1 n = none := by
  intro ks
  induction ks with
  | nil =>
    intro data collect errors n h
    exact h
  | cons k ks ih =>
    intro data collect errors n h
    rcases keysPass_cons k ks data collect errors with
      ⟨v, heq, _, _⟩ | ⟨er, heq, _, _⟩ | ⟨_, _, _, heq⟩ | ⟨_, _, _, heq⟩ <;>
      rw [heq]
    · exact ih _ _ _ n (alookup_vremove_none _ _ _ h)
    · exact ih _ _ _ n (alookup_vremove_none _ _ _ h)
    · exact ih _ _ _ n h
    · exact ih _ _ _ n h

theorem keysPass_data_self_none :
    ∀ (ks : List TKey) (data collect : List (Value × Value))
      (errors : List (Value × DErr)) (k : TKey),
    k ∈ ks →
    alookup (keysPass ks data collect errors).1 (.vstr k.name) = none := by
  intro ks
  induction ks with
  | nil =>
    intro data collect errors k hk
    exact absurd hk (List.not_mem_nil k)
  | cons k0 ks ih =>
    intro data collect errors k hk
    rcases List.mem_cons.1 hk with rfl | htail
    · rcases keysPass_cons k ks data collect errors with
        ⟨v, heq, _, _⟩ | ⟨er, heq, _, _⟩ |
        ⟨hmiss, _, _, heq⟩ | ⟨hmiss, _, _, heq⟩ <;>
        rw [heq]
      · exact keysPass_data_none _ _ _ _ _ (alookup_vremove_self _ _)
      · exact keysPass_data_none _ _ _ _ _ (alookup_vremove_self _ _)
      · exact keysPass_data_none _ _ _ _ _ hmiss
      · exact keysPass_data_none _ _ _ _ _ hmiss
    · rcases keysPass_cons k0 ks data collect errors with
        ⟨v, heq, _, _⟩ | ⟨er, heq, _, _⟩ | ⟨_, _, _, heq⟩ | ⟨_, _, _, heq⟩ <;>
        rw [heq]
      · exact ih _ _ _ k htail
      · exact ih _ _ _ k htail
      · exact ih _ _ _ k htail
      · exact ih _ _ _ k htail

theorem keysPass_required_error :
    ∀ (ks : List TKey) (data collect : List (Value × Value))
      (errors : List (Value × DErr)) (k : TKey),
    k ∈ ks → List.Pairwise (fun a b => ¬ nameClash a b) ks →
    alookup data (.vstr k.name) = none → k.default = .vnone →
    ¬ k.optional →
    alookup (keysPass ks data collect errors).2.2 (.vstr k.name) =
      some (.leaf "is required") := by
  intro ks
  induction ks with
  | nil =>
    intro data collect errors k hk _ _ _ _
    exact absurd hk (List.not_mem_nil k)
  | cons k0 ks ih =>
    intro data collect errors k hk hpw hmiss hdef hopt
    obtain ⟨hhead, htailpw⟩ := List.pairwise_cons.1 hpw
    rcases List.mem_cons.1 hk with rfl | htail
    · rcases keysPass_cons k ks data collect errors with
        ⟨v, heq, hres, hcond⟩ | ⟨er, heq, hres, hcond⟩ |
        ⟨_, _, _, heq⟩ | ⟨_, _, hopt2, heq⟩
      · rcases hcond with h1 | h2
        · rw [hmiss] at h1
          simp at h1
        · exact absurd hdef h2
      · rcases hcond with h1 | h2
        · rw [hmiss] at h1
          simp at h1
        · exact absurd hdef h2
      · rw [heq]
        have huntouched : ∀ k2 ∈ ks,
            Value.vstr k2.name ≠ Value.vstr k.name ∧
            Value.vstr k2.get_name ≠ Value.vstr k.name := by
          intro k2 hk2
          have hnc := hhead k2 hk2
          exact ⟨vstr_ne _ _ (fun hh => hnc (Or.inl hh.symm)),
                 vstr_ne _ _ (fun hh => hnc (Or.inr (Or.inl hh.symm)))⟩
        rw [keysPass_errors_untouched ks _ _ _ _ huntouched]
        exact alookup_dinsert_self _ _ _
      · exact absurd hopt2 hopt
    · rcases keysPass_cons k0 ks data collect errors with
        ⟨v, heq, _, _⟩ | ⟨er, heq, _, _⟩ | ⟨_, _, _, heq⟩ | ⟨_, _, _, heq⟩ <;>
        rw [heq]
      · exact ih _ _ _ k htail htailpw (alookup_vremove_none _ _ _ hmiss)
          hdef hopt
      · exact ih _ _ _ k htail htailpw (alookup_vremove_none _ _ _ hmiss)
          hdef hopt
      · exact ih _ _ _ k htail htailpw hmiss hdef hopt
      · exact ih _ _ _ k htail htailpw hmiss hdef hopt

theorem keysPass_valid_no_error :
    ∀ (ks : List TKey) (data collect : List (Value × Value))
      (errors : List (Value × DErr)) (k : TKey),
    k ∈ ks → List.Pairwise (fun a b => ¬ nameClash a b) ks →
    (∃ w r, alookup data (.vstr k.name) = some w ∧ k.trafaret w = .ok r) →
    alookup errors (.vstr k.get_name) = none →
    alookup (keysPass ks data collect errors).2.2 (.vstr k.get_name) =
      none := by
  intro ks
  induction ks with
  | nil =>
    intro data collect errors k hk _ _ he
    exact absurd hk (List.not_mem_nil k)
  | cons k0 ks ih =>
    intro data collect errors k hk hpw hval he
    obtain ⟨hhead, htailpw⟩ := List.pairwise_cons.1 hpw
    obtain ⟨w, r, hlook, hokr⟩ := hval
    rcases List.mem_cons.1 hk with rfl | htail
    · rcases keysPass_cons k ks data collect errors with
        ⟨v, heq, hres, hcond⟩ | ⟨er, heq, hres, hcond⟩ |
        ⟨hmiss, _, _, heq⟩ | ⟨hmiss, _, _, heq⟩
      · rw [heq]
        have huntouched : ∀ k2 ∈ ks,
            Value.vstr k2.name ≠ Value.vstr k.get_name ∧
            Value.vstr k2.get_name ≠ Value.vstr k.get_name := by
          intro k2 hk2
          have hnc := hhead k2 hk2
          exact ⟨vstr_ne _ _
              (fun hh => hnc (Or.inr (Or.inr (Or.inl hh.symm)))),
            vstr_ne _ _
              (fun hh => hnc (Or.inr (Or.inr (Or.inr hh.symm))))⟩
        rw [keysPass_errors_untouched ks _ _ _ _ huntouched]
        exact he
      · rw [hlook] at hres
        rw [Option.getD_some, hokr] at hres
        exact absurd hres (by simp)
      · rw [hlook] at hmiss
        exact Option.noConfusion hmiss
      · rw [hlook] at hmiss
        exact Option.noConfusion hmiss
    · have hnc := hhead k htail
      have hpres : alookup (vremove data (.vstr k0.name)) (.vstr k.name) =
          some w := by
        rw [alookup_vremove_ne _ _ _
          (vstr_ne _ _ (fun hh => hnc (Or.inl hh.symm)))]
        exact hlook
      rcases keysPass_cons k0 ks data collect errors with
        ⟨v, heq, _, _⟩ | ⟨er, heq, _, _⟩ |
        ⟨_, _, _, heq⟩ | ⟨_, _, _, heq⟩ <;>
        rw [heq]
      · exact ih _ _ _ k htail htailpw ⟨w, r, hpres, hokr⟩ he
      · refine ih _ _ _ k htail htailpw ⟨w, r, hpres, hokr⟩ ?_
        rw [alookup_dinsert_ne _ _ _ _
          (vstr_ne _ _ (fun hh => hnc (Or.inr (Or.inr (Or.inr hh.symm)))))]
        exact he
      · refine ih _ _ _ k htail htailpw ⟨w, r, hlook, hokr⟩ ?_
        rw [alookup_dinsert_ne _ _ _ _
          (vstr_ne _ _ (fun hh => hnc (Or.inr (Or.inl hh.symm))))]
        exact he
      · exact ih _ _ _ k htail htailpw ⟨w, r, hlook, hokr⟩ he

/-!  Extra-keys pass lemmas (for C1). -/

theorem extrasStep_cases (d : DictSchema) (snapshot : List (Value × Value))
    (acc : List (Value × Value) × List (Value × DErr)) (kv : Value × Value) :
    extrasStep d snapshot acc kv = acc ∨
    extrasStep d snapshot acc kv =
      (acc.1,
       dinsert acc.2 kv.1 (.leaf (pyStr kv.1 ++ " is not allowed key"))) ∨
    extrasStep d snapshot acc kv =
      (dinsert acc.1 kv.1 (.vdict snapshot), acc.2) := by
  unfold extrasStep
  by_cases h1 : inStrList kv.1 d.ignore = true
  · left
    rw [if_pos h1]
  · rw [if_neg h1]
    by_cases h2 : ¬ d.allow_any = true ∧ inStrList kv.1 d.extras = false
    · right
      left
      rw [if_pos h2]
    · right
      right
      rw [if_neg h2]

theorem extrasFold_errors_untouched (d : DictSchema)
    (snapshot : List (Value × Value)) :
    ∀ (data : List (Value × Value))
      (acc : List (Value × Value) × List (Value × DErr)) (n : Value),
    (∀ p ∈ data, p.1 ≠ n) →
    alookup (data.foldl (extrasStep d snapshot) acc).2 n =
      alookup acc.2 n := by
  intro data
  induction data with
  | nil =>
    intro acc n h
    rfl
  | cons p rest ih =>
    intro acc n h
    have hp := h p (List.mem_cons_self p rest)
    have hrest := fun q hq => h q (List.mem_cons_of_mem p hq)
    rw [List.foldl_cons]
    rcases extrasStep_cases d snapshot acc p with heq | heq | heq <;> rw [heq]
    · exact ih _ n hrest
    · rw [ih _ n hrest]
      exact alookup_dinsert_ne _ _ _ _ (Ne.symm hp)
    · exact ih _ n hrest

theorem extrasPass_errors_untouched (d : DictSchema)
    (data collect : List (Value × Value)) (errors : List (Value × DErr))
    (n : Value) (h : ∀ p ∈ data, p.1 ≠ n) :
    alookup (extrasPass d data collect errors).2 n = alookup errors n := by
  rw [extrasPass]
  by_cases hia : d.ignore_any = true
  · rw [if_pos hia]
  · rw [if_neg hia]
    exact extrasFold_errors_untouched d data data (collect, errors) n h

/-- Reduction of `Dict._check_val` on a dict input to its two passes. -/
theorem dictCheckVal_vdict (d : DictSchema) (entries : List (Value × Value)) :
    dictCheckVal d (.vdict entries) =
      (if (extrasPass d (keysPass d.keys entries [] []).1
            (keysPass d.keys entries [] []).2.1
            (keysPass d.keys entries [] []).2.2).2.isEmpty then
        .ok (.vdict (extrasPass d (keysPass d.keys entries [] []).1
            (keysPass d.keys entries [] []).2.1
            (keysPass d.keys entries [] []).2.2).1)
      else .error (.branch (extrasPass d (keysPass d.keys entries [] []).1
            (keysPass d.keys entries [] []).2.1
            (keysPass d.keys entries [] []).2.2).2)) := rfl

/-- Claim C1 (amended): for a `Dict` schema whose declared keys'
source/target names don't collide, a declared key that is absent from
the input, has no default and is not optional makes `Dict.check` fail
with a branch error containing the `'is required'` leaf under that
key's *source* name (`Key.pop` yields `self.name` for this error, so a
`to_name` rename is not applied to it), and no entry appears in the
error branch under the target name of any other declared key whose
present value validated successfully (provided that target name is not
itself a leftover input key). -/
theorem dict_missing_required_reports_source_name
    (d : DictSchema) (entries : List (Value × Value)) (k : TKey)
    (hk : k ∈ d.keys)
    (hdisj : d.keys.Pairwise (fun a b => ¬ nameClash a b))
    (hmiss : alookup entries (.vstr k.name) = none)
    (hdef : k.default = .vnone) (hopt : ¬ k.optional) :
    ∃ errs, dictCheck d (.vdict entries) = .error (.branch errs) ∧
      alookup errs (.vstr k.name) = some (.leaf "is required") ∧
      ∀ k2 ∈ d.keys,
        (∃ w r, alookup entries (.vstr k2.name) = some w ∧
          k2.trafaret w = .ok r) →
        (k2.get_name = k2.name ∨
          alookup entries (.vstr k2.get_name) = none) →
        alookup errs (.vstr k2.get_name) = none := by
  have hdc : dictCheck d (.vdict entries) =
      dictCheckVal d (.vdict entries) := by
    rw [dictCheck, mkTraf_check]
  have hKP : alookup (keysPass d.keys entries [] []).2.2 (.vstr k.name) =
      some (.leaf "is required") :=
    keysPass_required_error d.keys entries [] [] k hk hdisj hmiss hdef hopt
  have hD : alookup (keysPass d.keys entries [] []).1 (.vstr k.name) = none :=
    keysPass_data_none d.keys entries [] [] _ hmiss
  have hEX : alookup
      (extrasPass d (keysPass d.keys entries [] []).1
        (keysPass d.keys entries [] []).2.1
        (keysPass d.keys entries [] []).2.2).2 (.vstr k.name) =
      some (.leaf "is required") := by
    rw [extrasPass_errors_untouched d _ _ _ _ ((alookup_none_iff _ _).1 hD)]
    exact hKP
  have hne : (extrasPass d (keysPass d.keys entries [] []).1
      (keysPass d.keys entries [] []).2.1
      (keysPass d.keys entries [] []).2.2).2.isEmpty = false :=
    alookup_some_not_isEmpty _ _ _ hEX
  refine ⟨(extrasPass d (keysPass d.keys entries [] []).1
      (keysPass d.keys entries [] []).2.1
      (keysPass d.keys entries [] []).2.2).2, ?_, hEX, ?_⟩
  · rw [hdc, dictCheckVal_vdict, hne]
    simp
  · intro k2 hk2 hval hgn
    have hVNE : alookup (keysPass d.keys entries [] []).2.2
        (.vstr k2.get_name) = none :=
      keysPass_valid_no_error d.keys entries [] [] k2 hk2 hdisj hval rfl
    have hD2 : alookup (keysPass d.keys entries [] []).1
        (.vstr k2.get_name) = none := by
      rcases hgn with hgeq | hnone
      · rw [hgeq]
        exact keysPass_data_self_none d.keys entries [] [] k2 hk2
      · exact keysPass_data_none d.keys entries [] [] _ hnone
    rw [extrasPass_errors_untouched d _ _ _ _ ((alookup_none_iff _ _).1 hD2)]
    exact hVNE

/-- Witness for C1's amended theorem: `Dict(foo=Int, bar=String)` on
`{"foo": 1}` fails with exactly `{'bar': 'is required'}` (the valid
`foo` key does not appear in the error branch). -/
theorem dict_missing_required_reports_source_name_witness :
    dictCheck dFB (.vdict [(.vstr "foo", .vint 1)]) =
      .error (.branch [(.vstr "bar", .leaf "is required")]) := by
  have h := dict_missing_required_reports_source_name dFB
    [(.vstr "foo", .vint 1)] barK
    (List.mem_cons_of_mem fooK (List.mem_cons_self barK []))
    (by decide) (by decide) rfl (by decide)
  decide

end Trafaret
